import Mathlib

/-!
Shallow embedding of the D-MPNN featurization engine of
`deepchem/feat/molecule_featurizers/dmpnn_featurizer.py`:
the `GraphConvConstants` configuration, the atom/bond feature encoders,
the `_MapperDMPNN` directed-bond mapper, `generate_global_features`
and the `DMPNNFeaturizer` facade, together with proofs of the
spec-level properties of that engine.

Feature values are represented as rationals (`ℚ`); Python lists become
Lean `List`s; the numpy arrays of the mapper become lists of lists.
External collaborator code that is not part of the excerpt
(`one_hot_encode` and the per-attribute encoders of
`deepchem.utils.molecule_feature_utils`, the shared bond-feature
utility `deepchem.feat.graph_features.bond_features`, and the
fingerprint featurizers of the global-feature registry) is modelled
from the spec, as flagged in each doc comment.
-/

namespace DMPNN

/-- Truncating conversion of a rational to an integer, as Python's
`int(...)` cast does (truncation toward zero), re-embedded into `ℚ`. -/
def pyInt (q : ℚ) : ℚ :=
  if q < 0 then -(((⌊-q⌋ : ℤ) : ℚ)) else ((⌊q⌋ : ℤ) : ℚ)

/-- Modelled from the spec: `one_hot_encode` of
`deepchem.utils.molecule_feature_utils` (not in the excerpt).  Returns a
one-hot vector of length `len(allowable_set)`, or `len(allowable_set)+1`
when the unknown bucket is enabled; an observed value outside the
allowable set lights the unknown bucket when enabled, and otherwise
yields an all-zero block. -/
def one_hot_encode {α : Type} [DecidableEq α] (val : α) (allowable_set : List α)
    (include_unknown_set : Bool) : List ℚ :=
  let base := allowable_set.map (fun a => if a = val then (1 : ℚ) else 0)
  if include_unknown_set then
    base ++ [if val ∈ allowable_set then (0 : ℚ) else 1]
  else base

/-- Atom handle of the molecule-representation collaborator: the
per-atom attributes read by the encoders (`GraphConvConstants`
vocabulary queries). -/
structure RDKitAtom where
  atomicNum : ℤ
  totalDegree : ℤ
  formalCharge : ℤ
  chiralTag : ℤ
  totalNumHs : ℤ
  hybridization : String
  isAromatic : Bool
  mass : ℚ

/-- Bond handle of the molecule-representation collaborator: the
per-bond attributes read by the shared bond-feature utility. -/
structure RDKitBond where
  isSingle : Bool
  isDouble : Bool
  isTriple : Bool
  isAromatic : Bool
  isConjugated : Bool
  isInRing : Bool
  stereo : ℤ

/-- Featurization parameters of `GraphConvConstants`. -/
def MAX_ATOMIC_NUM : ℕ := 100

/-- Allowable-value list for the atomic-number block:
`list(range(MAX_ATOMIC_NUM))`. -/
def ATOM_FEATURES_atomic_num : List ℤ :=
  (List.range MAX_ATOMIC_NUM).map (fun n => (n : ℤ))

/-- Allowable-value list for the total-degree block. -/
def ATOM_FEATURES_degree : List ℤ := [0, 1, 2, 3, 4, 5]

/-- Allowable-value list for the formal-charge block. -/
def ATOM_FEATURES_formal_charge : List ℤ := [-1, -2, 1, 2, 0]

/-- Allowable-value list for the chirality-tag block. -/
def ATOM_FEATURES_chiral_tag : List ℤ := [0, 1, 2, 3]

/-- Allowable-value list for the hydrogen-count block. -/
def ATOM_FEATURES_num_Hs : List ℤ := [0, 1, 2, 3, 4]

/-- Allowable-value list for the hybridization block. -/
def ATOM_FEATURES_HYBRIDIZATION : List String :=
  ["SP", "SP2", "SP3", "SP3D", "SP3D2"]

/-- Dimension of the atom feature vector, computed exactly as in
`GraphConvConstants`: every categorical block gets one extra slot for
the unknown bucket, and the final `+ 1 + 2` covers the unknown bucket of
the hybridization block, the aromaticity indicator and the mass. -/
def ATOM_FDIM : ℕ :=
  (ATOM_FEATURES_atomic_num.length + 1) + (ATOM_FEATURES_degree.length + 1) +
    (ATOM_FEATURES_formal_charge.length + 1) + (ATOM_FEATURES_chiral_tag.length + 1) +
    (ATOM_FEATURES_num_Hs.length + 1) + ATOM_FEATURES_HYBRIDIZATION.length + 1 + 2

/-- Dimension of the bond feature vector (`GraphConvConstants.BOND_FDIM`). -/
def BOND_FDIM : ℕ := 14

/-- One-hot feature for the atomic number of an atom
(`get_atomic_num_one_hot`): encodes `GetAtomicNum() - 1` against the
allowable set, with the unknown bucket enabled. -/
def get_atomic_num_one_hot (atom : RDKitAtom) (allowable_set : List ℤ) : List ℚ :=
  one_hot_encode (atom.atomicNum - 1) allowable_set true

/-- One-hot feature for the chirality tag of an atom
(`get_atom_chiral_tag_one_hot`). -/
def get_atom_chiral_tag_one_hot (atom : RDKitAtom) (allowable_set : List ℤ) : List ℚ :=
  one_hot_encode atom.chiralTag allowable_set true

/-- Downscaled-mass feature of an atom (`get_atom_mass`):
`[GetMass() * 0.01]`. -/
def get_atom_mass (atom : RDKitAtom) : List ℚ :=
  [atom.mass * (1 / 100)]

/-- Modelled from the spec: `get_atom_total_degree_one_hot` of
`deepchem.utils.molecule_feature_utils` (not in the excerpt), a one-hot
encoder of the total degree with the unknown bucket enabled. -/
def get_atom_total_degree_one_hot (atom : RDKitAtom) (allowable_set : List ℤ) : List ℚ :=
  one_hot_encode atom.totalDegree allowable_set true

/-- Modelled from the spec: `get_atom_formal_charge_one_hot` (not in
the excerpt), a one-hot encoder of the formal charge with the unknown
bucket enabled. -/
def get_atom_formal_charge_one_hot (atom : RDKitAtom) (allowable_set : List ℤ) : List ℚ :=
  one_hot_encode atom.formalCharge allowable_set true

/-- Modelled from the spec: `get_atom_total_num_Hs_one_hot` (not in the
excerpt), a one-hot encoder of the hydrogen count with the unknown
bucket enabled. -/
def get_atom_total_num_Hs_one_hot (atom : RDKitAtom) (allowable_set : List ℤ) : List ℚ :=
  one_hot_encode atom.totalNumHs allowable_set true

/-- Modelled from the spec: `get_atom_hybridization_one_hot` (not in
the excerpt), a one-hot encoder of the hybridization tag; the source
passes the unknown-bucket flag explicitly. -/
def get_atom_hybridization_one_hot (atom : RDKitAtom) (allowable_set : List String)
    (include_unknown_set : Bool) : List ℚ :=
  one_hot_encode atom.hybridization allowable_set include_unknown_set

/-- Modelled from the spec: `get_atom_is_in_aromatic_one_hot` (not in
the excerpt), the single-slot aromaticity indicator. -/
def get_atom_is_in_aromatic_one_hot (atom : RDKitAtom) : List ℚ :=
  [if atom.isAromatic then 1 else 0]

/-- Atom feature vector of the D-MPNN featurizer (`atom_features`): an
absent atom yields the all-zero vector of width `ATOM_FDIM`; the
only-atomic-number mode keeps the atomic-number one-hot and zero-fills
the rest; otherwise the categorical blocks are concatenated, cast to
integers, and followed by the scaled mass and the optional
functional-group block. -/
def atom_features (atom : Option RDKitAtom) (functional_groups : Option (List ℚ))
    (only_atom_num : Bool) : List ℚ :=
  match atom with
  | none => List.replicate ATOM_FDIM 0
  | some a =>
    if only_atom_num then
      get_atomic_num_one_hot a ATOM_FEATURES_atomic_num ++
        List.replicate (ATOM_FDIM - MAX_ATOMIC_NUM - 1) 0
    else
      let blocks :=
        get_atomic_num_one_hot a ATOM_FEATURES_atomic_num ++
          get_atom_total_degree_one_hot a ATOM_FEATURES_degree ++
          get_atom_formal_charge_one_hot a ATOM_FEATURES_formal_charge ++
          get_atom_chiral_tag_one_hot a ATOM_FEATURES_chiral_tag ++
          get_atom_total_num_Hs_one_hot a ATOM_FEATURES_num_Hs ++
          get_atom_hybridization_one_hot a ATOM_FEATURES_HYBRIDIZATION true ++
          get_atom_is_in_aromatic_one_hot a
      let casted := blocks.map pyInt
      let withMass := casted ++ get_atom_mass a
      match functional_groups with
      | none => withMass
      | some fg => withMass ++ fg

/-- Modelled from the spec: the shared bond-feature utility
`deepchem.feat.graph_features.bond_features` called with
`use_extended_chirality=True` (not in the excerpt).  Per the spec it
produces the standard bond-type/ring/conjugation/stereo blocks of total
width `BOND_FDIM - 1 = 13`: four bond-type indicators, a conjugation
indicator, a ring indicator, and a stereo one-hot over six values with
an unknown bucket. -/
def b_Feats (bond : RDKitBond) : List ℚ :=
  [if bond.isSingle then 1 else 0, if bond.isDouble then 1 else 0,
   if bond.isTriple then 1 else 0, if bond.isAromatic then 1 else 0,
   if bond.isConjugated then 1 else 0, if bond.isInRing then 1 else 0] ++
    (one_hot_encode bond.stereo [0, 1, 2, 3, 4, 5] true).map pyInt

/-- Bond feature vector of the D-MPNN featurizer (`bond_features`): a
missing bond yields a leading 1 followed by `BOND_FDIM - 1` zeros; a
present bond yields a leading 0 followed by the shared utility's
descriptor blocks. -/
def bond_features (bond : Option RDKitBond) : List ℚ :=
  match bond with
  | none => 1 :: List.replicate (BOND_FDIM - 1) 0
  | some b => 0 :: b_Feats b

end DMPNN

namespace DMPNN

/-- Molecule view consumed by the directed-bond mapper: the
`GetBondBetweenAtoms` lookup (zero-based atom indices) of the
`datapoint` handed to `_MapperDMPNN`. -/
structure MapMol where
  bond : ℕ → ℕ → Option RDKitBond

/-- Mutable state of a `_MapperDMPNN` run: the running directed-bond
count, the concatenated atom+bond table, the per-atom incoming-bond
lists, the bond-to-origin-atom list and the bond-to-reverse-bond
list. -/
structure MapperState where
  num_bonds : ℕ
  f_ini_atoms_bonds_zero_padded : List (List ℚ)
  atom_to_incoming_bonds : List (List ℕ)
  bond_to_ini_atom : List ℕ
  b2revb : List ℕ

/-- Atom-index pairs `(a1, a2)` with `1 ≤ a1 < a2 ≤ num_atoms`,
enumerated in increasing `a1`, then increasing `a2` order: the double
loop of `_MapperDMPNN._generate_mapping`. -/
def pairList (num_atoms : ℕ) : List (ℕ × ℕ) :=
  (List.range' 1 num_atoms).flatMap
    (fun a1 => (List.range' (a1 + 1) (num_atoms - a1)).map (fun a2 => (a1, a2)))

/-- Initial mapper state as set up in `_MapperDMPNN.__init__`: a single
zero row in the concatenated table, empty incoming-bond lists for the
padding atom and every real atom, and the zero sentinel at position 0
of the bond-to-origin and reverse-bond lists. -/
def initState (concat_fdim num_atoms : ℕ) : MapperState :=
  { num_bonds := 0
  , f_ini_atoms_bonds_zero_padded := [List.replicate concat_fdim 0]
  , atom_to_incoming_bonds := List.replicate (num_atoms + 1) []
  , bond_to_ini_atom := [0]
  , b2revb := [0] }

/-- Appending an element to the list stored at index `i`
(`self.atom_to_incoming_bonds[i].append(x)`). -/
def appendAt (l : List (List ℕ)) (i x : ℕ) : List (List ℕ) :=
  l.set i (l.getD i [] ++ [x])

/-- Loop body of `_MapperDMPNN._generate_mapping` for one atom pair:
when a bond exists between the (zero-based) pair, append the two
directed rows to the concatenated table
(`_update_concat_vector`/`_extend_concat_feature`), update the
secondary mappings (`_update_secondary_mappings`) and advance the
directed-bond count by 2; otherwise leave the state unchanged. -/
def mapperStep (mol : MapMol) (f_atoms_zero_padded : List (List ℚ))
    (st : MapperState) (p : ℕ × ℕ) : MapperState :=
  match mol.bond (p.1 - 1) (p.2 - 1) with
  | none => st
  | some b =>
    let f_bond := bond_features (some b)
    { num_bonds := st.num_bonds + 2
    , f_ini_atoms_bonds_zero_padded :=
        st.f_ini_atoms_bonds_zero_padded ++
          [f_atoms_zero_padded.getD p.1 [] ++ f_bond,
           f_atoms_zero_padded.getD p.2 [] ++ f_bond]
    , atom_to_incoming_bonds :=
        appendAt (appendAt st.atom_to_incoming_bonds p.2 (st.num_bonds + 1))
          p.1 (st.num_bonds + 2)
    , bond_to_ini_atom := st.bond_to_ini_atom ++ [p.1, p.2]
    , b2revb := st.b2revb ++ [st.num_bonds + 2, st.num_bonds + 1] }

/-- State after the double loop of `_generate_mapping`. -/
def mapperLoop (mol : MapMol) (concat_fdim : ℕ)
    (f_atoms_zero_padded : List (List ℚ)) : MapperState :=
  (pairList (f_atoms_zero_padded.length - 1)).foldl
    (mapperStep mol f_atoms_zero_padded)
    (initState concat_fdim (f_atoms_zero_padded.length - 1))

/-- Padding width computed by `_modify_based_on_max_bonds`: the maximum
incoming-bond list length over all atom indices, floored at 1. -/
def max_num_bonds (st : MapperState) : ℕ :=
  max 1 ((st.atom_to_incoming_bonds.map List.length).foldr max 0)

/-- Padded incoming-bond lists of `_modify_based_on_max_bonds`: every
atom index `0 .. num_atoms` gets trailing zeros up to the padding
width. -/
def paddedIncoming (num_atoms : ℕ) (st : MapperState) : List (List ℕ) :=
  (List.range (num_atoms + 1)).map
    (fun a =>
      st.atom_to_incoming_bonds.getD a [] ++
        List.replicate
          (max_num_bonds st - (st.atom_to_incoming_bonds.getD a []).length) 0)

/-- Bond-indexed mapping before the reverse-bond pass: the numpy fancy
indexing `np.asarray(self.atom_to_incoming_bonds)[self.bond_to_ini_atom]`. -/
def mappingPreRev (num_atoms : ℕ) (st : MapperState) : List (List ℕ) :=
  st.bond_to_ini_atom.map (fun a => (paddedIncoming num_atoms st).getD a [])

/-- Reverse-bond replacement pass (`_replace_rev_bonds`): within row
`count`, every entry equal to `b2revb[count]` is replaced by 0. -/
def replaceRevBonds (m : List (List ℕ)) (rev : List ℕ) : List (List ℕ) :=
  (m.zip rev).map (fun pr => pr.1.map (fun x => if x = pr.2 then 0 else x))

/-- Result bundle of a `_MapperDMPNN` run: the concatenated table, the
final mapping, and the secondary mappings readable on the mapper
object. -/
structure MapperResult where
  num_bonds : ℕ
  f_ini_atoms_bonds_zero_padded : List (List ℚ)
  atom_to_incoming_bonds : List (List ℕ)
  bond_to_ini_atom : List ℕ
  b2revb : List ℕ
  mapping : List (List ℕ)

/-- Full `_MapperDMPNN` run (`__init__` + `_generate_mapping`): the
number of atoms is read off the zero-padded atom table, the double loop
is folded over all atom pairs, the incoming-bond lists are padded, the
mapping is built by origin-atom lookup, and the reverse bonds are
replaced by zeros. -/
def runMapper (mol : MapMol) (concat_fdim : ℕ)
    (f_atoms_zero_padded : List (List ℚ)) : MapperResult :=
  let num_atoms := f_atoms_zero_padded.length - 1
  let st := mapperLoop mol concat_fdim f_atoms_zero_padded
  let padded := paddedIncoming num_atoms st
  let preRev := mappingPreRev num_atoms st
  { num_bonds := st.num_bonds
  , f_ini_atoms_bonds_zero_padded := st.f_ini_atoms_bonds_zero_padded
  , atom_to_incoming_bonds := padded
  , bond_to_ini_atom := st.bond_to_ini_atom
  , b2revb := st.b2revb
  , mapping := replaceRevBonds preRev st.b2revb }

/-- Number of undirected bonds realized by the mapper's scan: the atom
pairs whose `GetBondBetweenAtoms` lookup succeeds. -/
def realBondCount (mol : MapMol) (num_atoms : ℕ) : ℕ :=
  (pairList num_atoms).countP (fun p => (mol.bond (p.1 - 1) (p.2 - 1)).isSome)

/-- Two concatenated-table rows contributed by one atom pair: none when
the bond is absent, and the `a1→a2` row followed by the `a2→a1` row
when it exists. -/
def pairRows (mol : MapMol) (f_atoms_zero_padded : List (List ℚ)) (p : ℕ × ℕ) :
    List (List ℚ) :=
  match mol.bond (p.1 - 1) (p.2 - 1) with
  | none => []
  | some b =>
    [f_atoms_zero_padded.getD p.1 [] ++ bond_features (some b),
     f_atoms_zero_padded.getD p.2 [] ++ bond_features (some b)]

end DMPNN

namespace DMPNN

theorem one_hot_encode_length {α : Type} [DecidableEq α] (v : α) (s : List α) :
    (one_hot_encode v s true).length = s.length + 1 := by
  simp [one_hot_encode]

theorem ATOM_FDIM_eq : ATOM_FDIM = 133 := by decide

theorem b_Feats_length (b : RDKitBond) : (b_Feats b).length = 13 := by
  simp [b_Feats, one_hot_encode]

/-- C5: for every atom handle, and for the absent-atom padding case,
`atom_features` returns a vector of length `ATOM_FDIM = 133` under the
reference configuration (no functional-group block); the absent atom
yields the all-zero vector of that length, and the only-atomic-number
mode zero-fills everything after the atomic-number one-hot block
(width `MAX_ATOMIC_NUM + 1`) so the total length is still 133. -/
theorem atom_feature_vector_dimension :
    ATOM_FDIM = 133 ∧
    (∀ fg onlyNum, atom_features none fg onlyNum = List.replicate 133 0) ∧
    (∀ a onlyNum, (atom_features (some a) none onlyNum).length = 133) ∧
    (∀ a, (atom_features (some a) none true).drop (MAX_ATOMIC_NUM + 1) =
      List.replicate (ATOM_FDIM - MAX_ATOMIC_NUM - 1) 0) := by
  refine ⟨ATOM_FDIM_eq, ?_, ?_, ?_⟩
  · intro fg onlyNum
    simp [atom_features, ATOM_FDIM_eq]
  · intro a onlyNum
    cases onlyNum with
    | true =>
      simp [atom_features, get_atomic_num_one_hot, one_hot_encode_length]
      decide
    | false =>
      simp [atom_features, get_atomic_num_one_hot, get_atom_total_degree_one_hot,
        get_atom_formal_charge_one_hot, get_atom_chiral_tag_one_hot,
        get_atom_total_num_Hs_one_hot, get_atom_hybridization_one_hot,
        get_atom_is_in_aromatic_one_hot, get_atom_mass, one_hot_encode_length]
      decide
  · intro a
    have hlen : (get_atomic_num_one_hot a ATOM_FEATURES_atomic_num).length =
        MAX_ATOMIC_NUM + 1 := by
      simp [get_atomic_num_one_hot, one_hot_encode_length]
      decide
    simp only [atom_features]
    rw [if_pos trivial]
    exact List.drop_left' hlen

/-- C6: `bond_features` always returns a vector of length
`BOND_FDIM = 14`; the missing/padding bond yields a leading 1 followed
by 13 zeros, and a present bond's vector begins with the marker 0. -/
theorem bond_feature_vector_dimension :
    BOND_FDIM = 14 ∧
    (∀ ob, (bond_features ob).length = 14) ∧
    bond_features none = 1 :: List.replicate 13 0 ∧
    (∀ b, (bond_features (some b)).head? = some 0) := by
  refine ⟨rfl, ?_, rfl, ?_⟩
  · intro ob
    cases ob with
    | none => rfl
    | some b => simp [bond_features, b_Feats_length]
  · intro b
    rfl

end DMPNN

namespace DMPNN

theorem appendAt_length (l : List (List ℕ)) (i x : ℕ) :
    (appendAt l i x).length = l.length := by
  simp [appendAt]

theorem mem_appendAt {l : List (List ℕ)} {i x : ℕ} {r : List ℕ}
    (h : r ∈ appendAt l i x) : r ∈ l ∨ r = l.getD i [] ++ [x] :=
  List.mem_or_eq_of_mem_set h

theorem appendAt_getD_ne (l : List (List ℕ)) {i j : ℕ} (x : ℕ) (h : j ≠ i) :
    (appendAt l i x).getD j [] = l.getD j [] := by
  simp only [appendAt, List.getD_eq_getElem?_getD]
  rw [List.getElem?_set_ne (by omega)]

theorem appendAt_getD_lt (l : List (List ℕ)) {i : ℕ} (x : ℕ) (h : i < l.length) :
    (appendAt l i x).getD i [] = l.getD i [] ++ [x] := by
  simp only [appendAt, List.getD_eq_getElem?_getD]
  rw [List.getElem?_set_self h]
  simp

theorem le_foldr_max {x : ℕ} {xs : List ℕ} (h : x ∈ xs) : x ≤ xs.foldr max 0 := by
  induction xs with
  | nil => cases h
  | cons y t ih =>
    rcases List.mem_cons.mp h with h | h
    · subst h; exact le_max_left _ _
    · exact le_trans (ih h) (le_max_right _ _)

theorem getD_mem {l : List (List ℕ)} {i : ℕ} (h : i < l.length) :
    l.getD i [] ∈ l := by
  rw [List.getD_eq_getElem l [] h]
  exact List.getElem_mem h

theorem getD_mem_or_nil (l : List (List ℕ)) (i : ℕ) :
    l.getD i [] ∈ l ∨ l.getD i [] = [] := by
  by_cases hlt : i < l.length
  · exact Or.inl (getD_mem hlt)
  · right
    simp only [List.getD_eq_getElem?_getD]
    rw [List.getElem?_eq_none (by omega)]
    rfl

theorem mapperStep_none {mol : MapMol} {f_atoms : List (List ℚ)} {st : MapperState}
    {p : ℕ × ℕ} (hb : mol.bond (p.1 - 1) (p.2 - 1) = none) :
    mapperStep mol f_atoms st p = st := by
  simp [mapperStep, hb]

theorem mapperStep_some {mol : MapMol} {f_atoms : List (List ℚ)} {st : MapperState}
    {p : ℕ × ℕ} {b : RDKitBond} (hb : mol.bond (p.1 - 1) (p.2 - 1) = some b) :
    mapperStep mol f_atoms st p =
      { num_bonds := st.num_bonds + 2
      , f_ini_atoms_bonds_zero_padded :=
          st.f_ini_atoms_bonds_zero_padded ++
            [f_atoms.getD p.1 [] ++ bond_features (some b),
             f_atoms.getD p.2 [] ++ bond_features (some b)]
      , atom_to_incoming_bonds :=
          appendAt (appendAt st.atom_to_incoming_bonds p.2 (st.num_bonds + 1))
            p.1 (st.num_bonds + 2)
      , bond_to_ini_atom := st.bond_to_ini_atom ++ [p.1, p.2]
      , b2revb := st.b2revb ++ [st.num_bonds + 2, st.num_bonds + 1] } := by
  simp [mapperStep, hb]

/-- Invariant maintained by the mapper's double loop over atom pairs:
list lengths track the directed-bond count, incoming-bond entries are
allocated directed-bond indices, the padding atom's list stays empty,
origin atoms are in range, and reverse-bond entries past the zero
sentinel are positive allocated indices. -/
structure LoopInv (num_atoms : ℕ) (st : MapperState) : Prop where
  a2ib_len : st.atom_to_incoming_bonds.length = num_atoms + 1
  b2ia_len : st.bond_to_ini_atom.length = st.num_bonds + 1
  b2revb_len : st.b2revb.length = st.num_bonds + 1
  a2ib_entries : ∀ r ∈ st.atom_to_incoming_bonds, ∀ x ∈ r, 1 ≤ x ∧ x ≤ st.num_bonds
  a2ib_zero : st.atom_to_incoming_bonds.getD 0 [] = []
  b2ia_entries : ∀ a ∈ st.bond_to_ini_atom, a ≤ num_atoms
  b2revb_pos : ∀ i, 1 ≤ i → i < st.b2revb.length →
    1 ≤ st.b2revb.getD i 0 ∧ st.b2revb.getD i 0 ≤ st.num_bonds

theorem loopInv_init (concat_fdim num_atoms : ℕ) :
    LoopInv num_atoms (initState concat_fdim num_atoms) := by
  constructor
  · simp [initState]
  · simp [initState]
  · simp [initState]
  · intro r hr x hx
    have hre : r = [] := by simpa [initState] using hr
    rw [hre] at hx
    cases hx
  · simp [initState]
  · intro a ha
    simp [initState] at ha
    omega
  · intro i hi1 hi2
    simp [initState] at hi2
    omega

theorem loopInv_step {num_atoms : ℕ} {st : MapperState} (mol : MapMol)
    (f_atoms : List (List ℚ)) (p : ℕ × ℕ) (hp : 1 ≤ p.1 ∧ p.1 < p.2 ∧ p.2 ≤ num_atoms)
    (h : LoopInv num_atoms st) : LoopInv num_atoms (mapperStep mol f_atoms st p) := by
  obtain ⟨hp1, hp12, hp2⟩ := hp
  cases hb : mol.bond (p.1 - 1) (p.2 - 1) with
  | none => rw [mapperStep_none hb]; exact h
  | some b =>
    rw [mapperStep_some hb]
    constructor
    · simp only []
      simpa [appendAt_length] using h.a2ib_len
    · simp only []
      simp [List.length_append, h.b2ia_len]
    · simp only []
      simp [List.length_append, h.b2revb_len]
    · simp only []
      intro r hr x hx
      rcases mem_appendAt hr with hr | hr
      · rcases mem_appendAt hr with hr | hr
        · have := h.a2ib_entries r hr x hx
          omega
        · subst hr
          rcases List.mem_append.mp hx with hx | hx
          · rcases getD_mem_or_nil st.atom_to_incoming_bonds p.2 with hrow | hrow
            · have := h.a2ib_entries _ hrow x hx
              omega
            · rw [hrow] at hx; cases hx
          · simp at hx
            omega
      · subst hr
        rcases List.mem_append.mp hx with hx | hx
        · rw [appendAt_getD_ne _ _ (by omega)] at hx
          rcases getD_mem_or_nil st.atom_to_incoming_bonds p.1 with hrow | hrow
          · have := h.a2ib_entries _ hrow x hx
            omega
          · rw [hrow] at hx; cases hx
        · simp at hx
          omega
    · simp only []
      rw [appendAt_getD_ne _ _ (by omega), appendAt_getD_ne _ _ (by omega)]
      exact h.a2ib_zero
    · simp only []
      intro a ha
      rcases List.mem_append.mp ha with ha | ha
      · exact h.b2ia_entries a ha
      · simp at ha
        rcases ha with ha | ha <;> omega
    · simp only []
      intro i hi1 hi2
      simp only [List.getD_eq_getElem?_getD]
      by_cases hlt : i < st.b2revb.length
      · rw [List.getElem?_append_left hlt]
        have := h.b2revb_pos i hi1 hlt
        simp only [List.getD_eq_getElem?_getD] at this
        omega
      · rw [List.getElem?_append_right (by omega)]
        simp only [List.length_append, List.length_cons, List.length_nil] at hi2
        have hk : i - st.b2revb.length = 0 ∨ i - st.b2revb.length = 1 := by omega
        rcases hk with hk | hk <;> rw [hk] <;> simp

theorem loopInv_foldl {num_atoms : ℕ} (mol : MapMol) (f_atoms : List (List ℚ))
    (l : List (ℕ × ℕ)) (hl : ∀ p ∈ l, 1 ≤ p.1 ∧ p.1 < p.2 ∧ p.2 ≤ num_atoms)
    {st : MapperState} (h : LoopInv num_atoms st) :
    LoopInv num_atoms (l.foldl (mapperStep mol f_atoms) st) := by
  induction l generalizing st with
  | nil => exact h
  | cons p t ih =>
    rw [List.foldl_cons]
    exact ih (fun q hq => hl q (List.mem_cons_of_mem p hq))
      (loopInv_step mol f_atoms p (hl p (List.mem_cons_self p t)) h)

theorem pairList_mem (num_atoms : ℕ) (p : ℕ × ℕ) :
    p ∈ pairList num_atoms ↔ 1 ≤ p.1 ∧ p.1 < p.2 ∧ p.2 ≤ num_atoms := by
  cases p with
  | mk a1 a2 =>
    simp only [pairList, List.mem_flatMap, List.mem_map, List.mem_range'_1, Prod.mk.injEq]
    constructor
    · rintro ⟨x, ⟨hx1, hx2⟩, y, ⟨hy1, hy2⟩, rfl, rfl⟩
      omega
    · rintro ⟨h1, h2, h3⟩
      exact ⟨a1, ⟨h1, by omega⟩, a2, ⟨by omega, by omega⟩, rfl, rfl⟩

theorem loopInv_mapperLoop (mol : MapMol) (concat_fdim : ℕ)
    (f_atoms : List (List ℚ)) :
    LoopInv (f_atoms.length - 1) (mapperLoop mol concat_fdim f_atoms) :=
  loopInv_foldl mol f_atoms _
    (fun p hp => (pairList_mem (f_atoms.length - 1) p).mp hp)
    (loopInv_init concat_fdim (f_atoms.length - 1))

end DMPNN

namespace DMPNN

theorem runMapper_f_concat (mol : MapMol) (cfd : ℕ) (f_atoms : List (List ℚ)) :
    (runMapper mol cfd f_atoms).f_ini_atoms_bonds_zero_padded =
      (mapperLoop mol cfd f_atoms).f_ini_atoms_bonds_zero_padded := rfl

theorem runMapper_num_bonds (mol : MapMol) (cfd : ℕ) (f_atoms : List (List ℚ)) :
    (runMapper mol cfd f_atoms).num_bonds = (mapperLoop mol cfd f_atoms).num_bonds := rfl

theorem runMapper_b2revb (mol : MapMol) (cfd : ℕ) (f_atoms : List (List ℚ)) :
    (runMapper mol cfd f_atoms).b2revb = (mapperLoop mol cfd f_atoms).b2revb := rfl

theorem runMapper_b2ia (mol : MapMol) (cfd : ℕ) (f_atoms : List (List ℚ)) :
    (runMapper mol cfd f_atoms).bond_to_ini_atom =
      (mapperLoop mol cfd f_atoms).bond_to_ini_atom := rfl

theorem runMapper_a2ib (mol : MapMol) (cfd : ℕ) (f_atoms : List (List ℚ)) :
    (runMapper mol cfd f_atoms).atom_to_incoming_bonds =
      paddedIncoming (f_atoms.length - 1) (mapperLoop mol cfd f_atoms) := rfl

theorem runMapper_mapping (mol : MapMol) (cfd : ℕ) (f_atoms : List (List ℚ)) :
    (runMapper mol cfd f_atoms).mapping =
      replaceRevBonds (mappingPreRev (f_atoms.length - 1) (mapperLoop mol cfd f_atoms))
        (mapperLoop mol cfd f_atoms).b2revb := rfl

theorem foldl_f_concat (mol : MapMol) (f_atoms : List (List ℚ)) (l : List (ℕ × ℕ))
    (st : MapperState) :
    (l.foldl (mapperStep mol f_atoms) st).f_ini_atoms_bonds_zero_padded =
      st.f_ini_atoms_bonds_zero_padded ++ l.flatMap (pairRows mol f_atoms) := by
  induction l generalizing st with
  | nil => simp
  | cons p t ih =>
    rw [List.foldl_cons, ih]
    cases hb : mol.bond (p.1 - 1) (p.2 - 1) with
    | none =>
      rw [mapperStep_none hb]
      simp [pairRows, hb]
    | some b =>
      rw [mapperStep_some hb]
      simp only []
      simp [pairRows, hb]

theorem foldl_num_bonds (mol : MapMol) (f_atoms : List (List ℚ)) (l : List (ℕ × ℕ))
    (st : MapperState) :
    (l.foldl (mapperStep mol f_atoms) st).num_bonds =
      st.num_bonds + 2 * l.countP (fun p => (mol.bond (p.1 - 1) (p.2 - 1)).isSome) := by
  induction l generalizing st with
  | nil => simp
  | cons p t ih =>
    rw [List.foldl_cons, ih, List.countP_cons]
    cases hb : mol.bond (p.1 - 1) (p.2 - 1) with
    | none =>
      rw [mapperStep_none hb]
      simp [hb]
    | some b =>
      rw [mapperStep_some hb]
      simp only []
      simp [hb]
      ring

theorem bind_pairRows_length (mol : MapMol) (f_atoms : List (List ℚ))
    (l : List (ℕ × ℕ)) :
    (l.flatMap (pairRows mol f_atoms)).length =
      2 * l.countP (fun p => (mol.bond (p.1 - 1) (p.2 - 1)).isSome) := by
  induction l with
  | nil => simp
  | cons p t ih =>
    rw [List.flatMap_cons, List.countP_cons, List.length_append, ih]
    cases hb : mol.bond (p.1 - 1) (p.2 - 1) with
    | none => simp [pairRows, hb]
    | some b =>
      simp [pairRows, hb]
      ring

/-- Strict lexicographic order on atom-index pairs: increasing first
component, then increasing second component. -/
def pairLex (p q : ℕ × ℕ) : Prop :=
  p.1 < q.1 ∨ (p.1 = q.1 ∧ p.2 < q.2)

theorem pairList_sorted (num_atoms : ℕ) :
    List.Pairwise pairLex (pairList num_atoms) := by
  rw [pairList, List.flatMap_def, List.pairwise_flatten]
  constructor
  · intro t ht
    rcases List.mem_map.mp ht with ⟨a1, ha1, rfl⟩
    rw [List.pairwise_map]
    refine List.Pairwise.imp ?_ (List.pairwise_lt_range' _ _ 1 (by omega))
    intro a b hab
    exact Or.inr ⟨rfl, hab⟩
  · rw [List.pairwise_map]
    refine List.Pairwise.imp ?_ (List.pairwise_lt_range' _ _ 1 (by omega))
    intro a b hab x hx y hy
    rcases List.mem_map.mp hx with ⟨a2, _, rfl⟩
    rcases List.mem_map.mp hy with ⟨b2, _, rfl⟩
    exact Or.inl hab

/-- C2: the concatenated atom+bond table of a `_MapperDMPNN` run is the
zero-padding row followed, in scan order over the atom pairs
`1 ≤ a1 < a2 ≤ num_atoms` (increasing `a1`, then increasing `a2`), by
exactly two rows per realized bond — the `a1→a2` row (origin `a1`'s
atom features concatenated with the bond features) immediately followed
by the `a2→a1` row — so rows occupy consecutive directed-bond indices
and the table has `2 * (number of real bonds) + 1` rows. -/
theorem concat_table_structure (mol : MapMol) (concat_fdim : ℕ)
    (f_atoms : List (List ℚ)) :
    (runMapper mol concat_fdim f_atoms).f_ini_atoms_bonds_zero_padded =
      List.replicate concat_fdim 0 ::
        (pairList (f_atoms.length - 1)).flatMap (pairRows mol f_atoms) ∧
    (runMapper mol concat_fdim f_atoms).num_bonds =
      2 * realBondCount mol (f_atoms.length - 1) ∧
    (runMapper mol concat_fdim f_atoms).f_ini_atoms_bonds_zero_padded.length =
      2 * realBondCount mol (f_atoms.length - 1) + 1 ∧
    (∀ p : ℕ × ℕ, p ∈ pairList (f_atoms.length - 1) ↔
      1 ≤ p.1 ∧ p.1 < p.2 ∧ p.2 ≤ f_atoms.length - 1) ∧
    List.Pairwise pairLex (pairList (f_atoms.length - 1)) := by
  have hfc : (runMapper mol concat_fdim f_atoms).f_ini_atoms_bonds_zero_padded =
      List.replicate concat_fdim 0 ::
        (pairList (f_atoms.length - 1)).flatMap (pairRows mol f_atoms) := by
    rw [runMapper_f_concat, mapperLoop, foldl_f_concat]
    simp [initState]
  refine ⟨hfc, ?_, ?_, pairList_mem _, pairList_sorted _⟩
  · rw [runMapper_num_bonds, mapperLoop, foldl_num_bonds]
    simp [initState, realBondCount]
  · rw [hfc, List.length_cons, bind_pairRows_length]
    rfl

end DMPNN

namespace DMPNN

theorem mappingPreRev_length (num_atoms : ℕ) (st : MapperState) :
    (mappingPreRev num_atoms st).length = st.bond_to_ini_atom.length := by
  simp [mappingPreRev]

theorem paddedIncoming_length (num_atoms : ℕ) (st : MapperState) :
    (paddedIncoming num_atoms st).length = num_atoms + 1 := by
  simp [paddedIncoming]

theorem replaceRevBonds_getD (m : List (List ℕ)) (rev : List ℕ) (b : ℕ)
    (hm : b < m.length) (hr : b < rev.length) :
    (replaceRevBonds m rev).getD b [] =
      (m.getD b []).map (fun x => if x = rev.getD b 0 then 0 else x) := by
  have hz : b < (m.zip rev).length := by
    rw [List.length_zip]
    omega
  have hmm : b < (replaceRevBonds m rev).length := by
    simp only [replaceRevBonds, List.length_map]
    exact hz
  rw [List.getD_eq_getElem _ _ hmm, List.getD_eq_getElem _ _ hm,
    List.getD_eq_getElem _ _ hr]
  simp [replaceRevBonds, List.getElem_zip]

theorem a2ib_getD_length_le (st : MapperState) (a : ℕ) :
    (st.atom_to_incoming_bonds.getD a []).length ≤ max_num_bonds st := by
  rcases getD_mem_or_nil st.atom_to_incoming_bonds a with hmem | hnil
  · have : (st.atom_to_incoming_bonds.getD a []).length ∈
        st.atom_to_incoming_bonds.map List.length :=
      List.mem_map_of_mem List.length hmem
    exact le_trans (le_foldr_max this) (le_max_right 1 _)
  · rw [hnil]
    simp [max_num_bonds]

theorem paddedIncoming_getD (num_atoms : ℕ) (st : MapperState) (a : ℕ)
    (ha : a < num_atoms + 1) :
    (paddedIncoming num_atoms st).getD a [] =
      st.atom_to_incoming_bonds.getD a [] ++
        List.replicate
          (max_num_bonds st - (st.atom_to_incoming_bonds.getD a []).length) 0 := by
  have hlen : a < (paddedIncoming num_atoms st).length := by
    rw [paddedIncoming_length]
    exact ha
  rw [List.getD_eq_getElem _ _ hlen]
  simp [paddedIncoming, List.getElem_map, List.getElem_range]

theorem paddedIncoming_getD_length (num_atoms : ℕ) (st : MapperState) (a : ℕ)
    (ha : a < num_atoms + 1) :
    ((paddedIncoming num_atoms st).getD a []).length = max_num_bonds st := by
  rw [paddedIncoming_getD num_atoms st a ha]
  have := a2ib_getD_length_le st a
  simp only [List.length_append, List.length_replicate]
  omega

/-- C1: for every directed bond index `b` in range (1 up to the number
of directed bonds), the final mapping row of `b` is the pre-final row
with every entry equal to `reverse(b)` replaced by 0, and consequently
never contains `reverse(b)`. -/
theorem mapping_excludes_reverse (mol : MapMol) (cfd : ℕ) (f_atoms : List (List ℚ))
    (b : ℕ) (hb1 : 1 ≤ b) (hb2 : b < (runMapper mol cfd f_atoms).b2revb.length) :
    (runMapper mol cfd f_atoms).mapping.getD b [] =
      ((mappingPreRev (f_atoms.length - 1) (mapperLoop mol cfd f_atoms)).getD b []).map
        (fun x => if x = (runMapper mol cfd f_atoms).b2revb.getD b 0 then 0 else x) ∧
    (runMapper mol cfd f_atoms).b2revb.getD b 0 ∉
      (runMapper mol cfd f_atoms).mapping.getD b [] := by
  have hInv := loopInv_mapperLoop mol cfd f_atoms
  have hb2' : b < (mapperLoop mol cfd f_atoms).b2revb.length := hb2
  have hpre : b < (mappingPreRev (f_atoms.length - 1) (mapperLoop mol cfd f_atoms)).length := by
    rw [mappingPreRev_length, hInv.b2ia_len]
    rw [hInv.b2revb_len] at hb2'
    exact hb2'
  have heq : (runMapper mol cfd f_atoms).mapping.getD b [] =
      ((mappingPreRev (f_atoms.length - 1) (mapperLoop mol cfd f_atoms)).getD b []).map
        (fun x => if x = (runMapper mol cfd f_atoms).b2revb.getD b 0 then 0 else x) := by
    rw [runMapper_mapping, runMapper_b2revb]
    exact replaceRevBonds_getD _ _ b hpre hb2'
  refine ⟨heq, ?_⟩
  have hrev : 1 ≤ (runMapper mol cfd f_atoms).b2revb.getD b 0 := by
    rw [runMapper_b2revb]
    exact (hInv.b2revb_pos b hb1 hb2').1
  intro hmem
  rw [heq] at hmem
  rcases List.mem_map.mp hmem with ⟨x, _, hx⟩
  by_cases hxe : x = (runMapper mol cfd f_atoms).b2revb.getD b 0
  · rw [if_pos hxe] at hx
    omega
  · rw [if_neg hxe] at hx
    exact hxe hx

theorem mapping_entry_le (mol : MapMol) (cfd : ℕ) (f_atoms : List (List ℚ))
    (i j : ℕ) :
    ((runMapper mol cfd f_atoms).mapping.getD i []).getD j 0 ≤
      (mapperLoop mol cfd f_atoms).num_bonds := by
  have hInv := loopInv_mapperLoop mol cfd f_atoms
  set st := mapperLoop mol cfd f_atoms with hst
  have hrow : ∀ r ∈ (runMapper mol cfd f_atoms).mapping, ∀ x ∈ r, x ≤ st.num_bonds := by
    intro r hr x hx
    rw [runMapper_mapping] at hr
    rcases List.mem_map.mp hr with ⟨pr, hpr, rfl⟩
    rcases List.mem_map.mp hx with ⟨y, hy, rfl⟩
    have hy_le : y ≤ st.num_bonds := by
      have hpr1 : pr.1 ∈ mappingPreRev (f_atoms.length - 1) st := (List.of_mem_zip hpr).1
      rcases List.mem_map.mp hpr1 with ⟨a, ha, heqa⟩
      rw [← heqa] at hy
      rcases getD_mem_or_nil (paddedIncoming (f_atoms.length - 1) st) a with hpad | hpad
      · rcases List.mem_map.mp hpad with ⟨a', ha', heqa'⟩
        rw [← heqa'] at hy
        rcases List.mem_append.mp hy with hy | hy
        · rcases getD_mem_or_nil st.atom_to_incoming_bonds a' with hmem | hnil
          · exact (hInv.a2ib_entries _ hmem y hy).2
          · rw [hnil] at hy
            cases hy
        · rw [List.eq_of_mem_replicate hy]
          exact Nat.zero_le _
      · rw [hpad] at hy
        cases hy
    by_cases hye : y = pr.2
    · rw [if_pos hye]
      exact Nat.zero_le _
    · rw [if_neg hye]
      exact hy_le
  rcases getD_mem_or_nil (runMapper mol cfd f_atoms).mapping i with hmi | hmi
  · by_cases hj : j < ((runMapper mol cfd f_atoms).mapping.getD i []).length
    · have : ((runMapper mol cfd f_atoms).mapping.getD i []).getD j 0 ∈
          (runMapper mol cfd f_atoms).mapping.getD i [] := by
        rw [List.getD_eq_getElem _ _ hj]
        exact List.getElem_mem hj
      exact hrow _ hmi _ this
    · rw [List.getD_eq_default _ _ (by omega)]
      exact Nat.zero_le _
  · rw [hmi]
    simp
end DMPNN

namespace DMPNN

/-- C10: every entry of the final mapping array is a valid row index
into the concatenated atom+bond table: it is at most
`2 * (number of real undirected bonds)` (and at least 0, being a
natural number) — either the zero sentinel or an allocated
directed-bond index.  Stated via `getD` so it covers every row and
every position. -/
theorem mapping_entries_are_valid_row_indices (mol : MapMol) (cfd : ℕ)
    (f_atoms : List (List ℚ)) (i j : ℕ) :
    ((runMapper mol cfd f_atoms).mapping.getD i []).getD j 0 ≤
      2 * realBondCount mol (f_atoms.length - 1) := by
  have h := mapping_entry_le mol cfd f_atoms i j
  have hn : (mapperLoop mol cfd f_atoms).num_bonds =
      2 * realBondCount mol (f_atoms.length - 1) := by
    rw [mapperLoop, foldl_num_bonds]
    simp [initState, realBondCount]
  omega

/-- C4: after the padding pass, every atom index `a` from 0 to
`num_atoms` has an incoming-bond list of length exactly
`max(1, maximum in-degree observed over all atoms)`, and the padding
atom 0's list is all zeros. -/
theorem incoming_bonds_padded_uniformly (mol : MapMol) (cfd : ℕ)
    (f_atoms : List (List ℚ)) (a : ℕ) (ha : a < f_atoms.length - 1 + 1) :
    ((runMapper mol cfd f_atoms).atom_to_incoming_bonds.getD a []).length =
      max_num_bonds (mapperLoop mol cfd f_atoms) ∧
    (runMapper mol cfd f_atoms).atom_to_incoming_bonds.getD 0 [] =
      List.replicate (max_num_bonds (mapperLoop mol cfd f_atoms)) 0 := by
  have hInv := loopInv_mapperLoop mol cfd f_atoms
  constructor
  · rw [runMapper_a2ib]
    exact paddedIncoming_getD_length _ _ a ha
  · rw [runMapper_a2ib, paddedIncoming_getD _ _ 0 (by omega)]
    rw [hInv.a2ib_zero]
    simp

theorem foldl_no_bond (mol : MapMol) (f_atoms : List (List ℚ))
    (h : ∀ i j, mol.bond i j = none) (l : List (ℕ × ℕ)) (st : MapperState) :
    l.foldl (mapperStep mol f_atoms) st = st := by
  induction l generalizing st with
  | nil => rfl
  | cons p t ih =>
    rw [List.foldl_cons, mapperStep_none (h _ _)]
    exact ih st

theorem foldr_max_replicate_zero (k : ℕ) :
    (List.replicate k (0 : ℕ)).foldr max 0 = 0 := by
  induction k with
  | zero => rfl
  | succ n ih => simp [List.replicate_succ, ih]

theorem max_num_bonds_init (cfd n : ℕ) : max_num_bonds (initState cfd n) = 1 := by
  have hrep : (initState cfd n).atom_to_incoming_bonds =
      List.replicate (n + 1) [] := rfl
  rw [max_num_bonds, hrep, List.map_replicate]
  simp [foldr_max_replicate_zero]

theorem a2ib_init_getD (cfd n a : ℕ) :
    (initState cfd n).atom_to_incoming_bonds.getD a [] = [] := by
  have hrep : (initState cfd n).atom_to_incoming_bonds =
      List.replicate (n + 1) [] := rfl
  rw [hrep]
  by_cases hlt : a < n + 1
  · rw [List.getD_eq_getElem _ _ (by simpa using hlt)]
    simp
  · rw [List.getD_eq_default _ _ (by simpa using hlt)]

/-- C3 (amended): a molecule with no bonds yields a padding width
`max_in_degree = 1`, a concatenated table holding only the
zero-padding row, a directed-bond count of 0, and a final mapping that
is the all-zero array `[[0]]` of shape `[num_bonds + 1, 1] = [1, 1]`
(one row — indexed by the sole directed-bond index 0 — not
`num_atoms + 1` rows). -/
theorem no_bond_molecule_outputs (mol : MapMol) (cfd : ℕ)
    (f_atoms : List (List ℚ)) (h : ∀ i j, mol.bond i j = none) :
    max_num_bonds (mapperLoop mol cfd f_atoms) = 1 ∧
    (runMapper mol cfd f_atoms).f_ini_atoms_bonds_zero_padded = [List.replicate cfd 0] ∧
    (runMapper mol cfd f_atoms).num_bonds = 0 ∧
    (runMapper mol cfd f_atoms).mapping = [[0]] := by
  have hloop : mapperLoop mol cfd f_atoms = initState cfd (f_atoms.length - 1) := by
    rw [mapperLoop]
    exact foldl_no_bond mol f_atoms h _ _
  refine ⟨?_, ?_, ?_, ?_⟩
  · rw [hloop, max_num_bonds_init]
  · rw [runMapper_f_concat, hloop]
    rfl
  · rw [runMapper_num_bonds, hloop]
    rfl
  · rw [runMapper_mapping, hloop]
    have hpad : (paddedIncoming (f_atoms.length - 1)
        (initState cfd (f_atoms.length - 1))).getD 0 [] = [0] := by
      rw [paddedIncoming_getD _ _ 0 (by omega), a2ib_init_getD, max_num_bonds_init]
      rfl
    have hpre : mappingPreRev (f_atoms.length - 1)
        (initState cfd (f_atoms.length - 1)) = [[0]] := by
      have hb2ia : (initState cfd (f_atoms.length - 1)).bond_to_ini_atom = [0] := rfl
      rw [mappingPreRev, hb2ia, List.map_cons, List.map_nil, hpad]
    rw [hpre]
    rfl

/-- Bond handle used by the concrete witness molecules: a plain single
bond. -/
def chainBondW : RDKitBond :=
  { isSingle := true, isDouble := false, isTriple := false, isAromatic := false
  , isConjugated := false, isInRing := false, stereo := 0 }

/-- Concrete two-atom molecule with one bond between atoms 0 and 1
(zero-based). -/
def molPairW : MapMol :=
  { bond := fun i j => if i = 0 ∧ j = 1 then some chainBondW else none }

/-- Zero-padded atom table for the two-atom witness molecule. -/
def fAtomsPairW : List (List ℚ) := [[0], [1], [2]]

/-- Concrete molecule with no bonds at all. -/
def molNoBondW : MapMol := { bond := fun _ _ => none }

/-- Zero-padded atom table for a single isolated atom. -/
def fAtomsSingleW : List (List ℚ) := [[0], [0]]

/-- Concrete linear three-atom chain: bonds 1–2 and 2–3 (one-based),
that is (0,1) and (1,2) zero-based. -/
def molChainW : MapMol :=
  { bond := fun i j =>
      if (i = 0 ∧ j = 1) ∨ (i = 1 ∧ j = 2) then some chainBondW else none }

/-- Zero-padded atom table for the three-atom chain. -/
def fAtomsChainW : List (List ℚ) := [[0], [1], [2], [3]]

/-- C3 counterexample: for a single isolated atom (`num_atoms = 1`, no
bonds) the final mapping has exactly 1 row (`num_bonds + 1 = 1`), not
`num_atoms + 1 = 2` rows as the claimed shape `[num_atoms + 1, 1]`
requires. -/
theorem single_atom_mapping_shape_counterexample :
    fAtomsSingleW.length - 1 = 1 ∧
    (runMapper molNoBondW 147 fAtomsSingleW).mapping.length = 1 ∧
    (runMapper molNoBondW 147 fAtomsSingleW).mapping.length ≠
      (fAtomsSingleW.length - 1) + 1 := by
  refine ⟨rfl, ?_, ?_⟩ <;> decide

theorem no_bond_molecule_outputs_witness :
    (∀ i j, molNoBondW.bond i j = none) ∧
    max_num_bonds (mapperLoop molNoBondW 147 fAtomsSingleW) = 1 ∧
    (runMapper molNoBondW 147 fAtomsSingleW).mapping = [[0]] :=
  ⟨fun _ _ => rfl,
    (no_bond_molecule_outputs molNoBondW 147 fAtomsSingleW (fun _ _ => rfl)).1,
    (no_bond_molecule_outputs molNoBondW 147 fAtomsSingleW (fun _ _ => rfl)).2.2.2⟩

theorem mapping_excludes_reverse_witness :
    (1 ≤ 1 ∧ 1 < (runMapper molPairW 147 fAtomsPairW).b2revb.length) ∧
    (runMapper molPairW 147 fAtomsPairW).b2revb.getD 1 0 ∉
      (runMapper molPairW 147 fAtomsPairW).mapping.getD 1 [] :=
  ⟨⟨le_refl 1, by decide⟩,
    (mapping_excludes_reverse molPairW 147 fAtomsPairW 1 (by decide) (by decide)).2⟩

theorem incoming_bonds_padded_uniformly_witness :
    (2 < fAtomsChainW.length - 1 + 1) ∧
    ((runMapper molChainW 147 fAtomsChainW).atom_to_incoming_bonds.getD 2 []).length =
      max_num_bonds (mapperLoop molChainW 147 fAtomsChainW) ∧
    (runMapper molChainW 147 fAtomsChainW).atom_to_incoming_bonds.getD 0 [] =
      List.replicate (max_num_bonds (mapperLoop molChainW 147 fAtomsChainW)) 0 :=
  ⟨by decide,
    (incoming_bonds_padded_uniformly molChainW 147 fAtomsChainW 2 (by decide)).1,
    (incoming_bonds_padded_uniformly molChainW 147 fAtomsChainW 2 (by decide)).2⟩

end DMPNN

namespace DMPNN

/-- Feature value of the numeric runtime: either NaN or an ordinary
number, so that the NaN-fixing pass of `generate_global_features` is
representable. -/
inductive FVal
  | nan
  | val (q : ℚ)
deriving DecidableEq

/-- Molecule view consumed by the global-feature generator: the
`GetNumHeavyAtoms` accessor. -/
structure GMol where
  numHeavyAtoms : ℕ

/-- Environment of `generate_global_features`: the
`GraphConvConstants.FEATURE_GENERATORS` registry (whose sole reference
entry maps `"morgan"` to the external circular-fingerprint featurizer,
not in the excerpt and therefore kept abstract as a function value) and
the external `Chem.MolFromSmiles('C')` reference molecule (methane, one
heavy atom). -/
structure GenEnv where
  registry : List (String × (GMol → List FVal))
  methane : GMol

/-- NaN-fixing pass of `generate_global_features`:
`np.where(np.isnan(...), 0, ...)`. -/
def fixNans (v : List FVal) : List FVal :=
  v.map (fun x => match x with | FVal.nan => FVal.val 0 | x => x)

/-- Warning message logged for an unrecognized generator name. -/
def unavailableMsg (generator : String) : String :=
  generator ++ " generator is not available in DMPNN"

/-- Per-generator loop body of `generate_global_features`: a recognized
generator extends the running feature list (with its output on the
molecule, or with a zero vector sized by its output on the methane
reference when the molecule has zero heavy atoms); an unrecognized name
only logs a warning. -/
def globalStep (env : GenEnv) (mol : GMol) (acc : List FVal × List String)
    (generator : String) : List FVal × List String :=
  match env.registry.lookup generator with
  | some global_featurizer =>
    if mol.numHeavyAtoms > 0 then
      (acc.1 ++ global_featurizer mol, acc.2)
    else
      (acc.1 ++ List.replicate (global_featurizer env.methane).length (FVal.val 0),
        acc.2)
  | none => (acc.1, acc.2 ++ [unavailableMsg generator])

/-- Embedding of `generate_global_features`: fold the per-generator
step over the requested names starting from the empty feature list,
then fix NaNs.  The second component collects the warnings logged for
unrecognized names. -/
def generate_global_features (env : GenEnv) (mol : GMol)
    (features_generators : List String) : List FVal × List String :=
  let folded := features_generators.foldl (globalStep env mol) ([], [])
  (fixNans folded.1, folded.2)

/-- Contribution of a single requested generator name to the final
global feature vector (before NaN fixing). -/
def generatorContribution (env : GenEnv) (mol : GMol) (generator : String) :
    List FVal :=
  match env.registry.lookup generator with
  | some global_featurizer =>
    if mol.numHeavyAtoms > 0 then global_featurizer mol
    else List.replicate (global_featurizer env.methane).length (FVal.val 0)
  | none => []

theorem globalStep_foldl (env : GenEnv) (mol : GMol) (gens : List String)
    (acc : List FVal × List String) :
    gens.foldl (globalStep env mol) acc =
      (acc.1 ++ gens.flatMap (generatorContribution env mol),
        acc.2 ++ (gens.filter (fun g => (env.registry.lookup g).isNone)).map
          unavailableMsg) := by
  induction gens generalizing acc with
  | nil => simp
  | cons g t ih =>
    rw [List.foldl_cons, ih, List.flatMap_cons, List.filter_cons]
    cases hg : env.registry.lookup g with
    | none =>
      simp [globalStep, generatorContribution, hg]
    | some gf =>
      by_cases hh : mol.numHeavyAtoms > 0
      · simp [globalStep, generatorContribution, hg, hh]
      · simp [globalStep, generatorContribution, hg, hh]

/-- C8: `generate_global_features` is total over the requested names —
an unrecognized name contributes nothing to the feature vector and only
appends a warning; the final vector is the concatenation of the
recognized generators' contributions with every NaN replaced by 0, and
an empty request list yields the empty vector with no warnings. -/
theorem global_features_skip_unrecognized (env : GenEnv) (mol : GMol)
    (gens : List String) :
    (generate_global_features env mol gens).1 =
      fixNans (gens.flatMap (generatorContribution env mol)) ∧
    (generate_global_features env mol gens).2 =
      (gens.filter (fun g => (env.registry.lookup g).isNone)).map unavailableMsg ∧
    generate_global_features env mol [] = ([], []) := by
  refine ⟨?_, ?_, rfl⟩ <;>
    rw [generate_global_features, globalStep_foldl] <;> simp

/-- C7: for a molecule with zero heavy atoms and a recognized generator
name, `generate_global_features` substitutes (without raising) an
all-zero vector whose width equals the length of that generator's
output on the one-heavy-atom methane reference molecule. -/
theorem zero_heavy_atoms_fallback (env : GenEnv) (mol : GMol) (generator : String)
    (global_featurizer : GMol → List FVal)
    (hg : env.registry.lookup generator = some global_featurizer)
    (hz : mol.numHeavyAtoms = 0) :
    (generate_global_features env mol [generator]).1 =
      List.replicate (global_featurizer env.methane).length (FVal.val 0) ∧
    (generate_global_features env mol [generator]).1.length =
      (global_featurizer env.methane).length ∧
    (generate_global_features env mol [generator]).2 = [] := by
  have h1 : (generate_global_features env mol [generator]).1 =
      List.replicate (global_featurizer env.methane).length (FVal.val 0) := by
    rw [generate_global_features, globalStep_foldl]
    simp [generatorContribution, hg, hz, fixNans, List.map_replicate]
  refine ⟨h1, ?_, ?_⟩
  · rw [h1]
    simp
  · rw [generate_global_features, globalStep_foldl]
    simp [hg]

/-- Concrete registry used by the global-feature witness: a single
generator producing a fixed-width vector containing a NaN. -/
def registryW : GenEnv :=
  { registry := [("morgan", fun _ => [FVal.val 1, FVal.nan, FVal.val 2])]
  , methane := { numHeavyAtoms := 1 } }

/-- Zero-heavy-atom molecule for the global-feature witness. -/
def gmolZeroW : GMol := { numHeavyAtoms := 0 }

theorem zero_heavy_atoms_fallback_witness :
    registryW.registry.lookup "morgan" =
      some (fun _ => [FVal.val 1, FVal.nan, FVal.val 2]) ∧
    gmolZeroW.numHeavyAtoms = 0 ∧
    (generate_global_features registryW gmolZeroW ["morgan"]).1 =
      List.replicate 3 (FVal.val 0) :=
  ⟨rfl, rfl,
    (zero_heavy_atoms_fallback registryW gmolZeroW "morgan"
      (fun _ => [FVal.val 1, FVal.nan, FVal.val 2]) rfl rfl).1⟩

end DMPNN

namespace DMPNN

/-- Molecule handle consumed by the featurizer facade: atom list
(`GetAtoms`), bond lookup by atom pair (`GetBondBetweenAtoms`), bond
iteration as begin/end atom-index pairs (`GetBonds`), and the
heavy-atom count read by the global-feature generator. -/
structure FacadeMol where
  atoms : List RDKitAtom
  bondBetween : ℕ → ℕ → Option RDKitBond
  bondList : List (ℕ × ℕ)
  numHeavyAtoms : ℕ

/-- Input datapoint of `DMPNNFeaturizer._featurize`: either a proper
molecule handle (an RDKit `Mol` instance) or anything else. -/
inductive Datapoint
  | ofMol (m : FacadeMol)
  | invalid

/-- Output record assembled by the facade (`GraphData`). -/
structure GraphData where
  node_features : List (List ℚ)
  edge_index : List ℕ × List ℕ
  global_features : List FVal
  mapping : List (List ℕ)
  node_features_zero_padded : List (List ℚ)
  concatenated_features_zero_padded : List (List ℚ)

/-- Configuration of the `DMPNNFeaturizer` facade. -/
structure DMPNNFeaturizerCfg where
  features_generators : Option (List String)
  is_adding_hs : Bool

/-- Error message raised by `_featurize` on a non-molecule input. -/
def dmpnnErrorMsg : String :=
  "Feature field should contain smiles for DMPNN featurizer!"

/-- Naive check that `pat` occurs at the head of `s`. -/
def headMatches : List Char → List Char → Bool
  | [], _ => true
  | _ :: _, [] => false
  | c :: cs, d :: ds => c = d && headMatches cs ds

/-- Naive substring check over character lists. -/
def containsSub (pat : List Char) : List Char → Bool
  | [] => headMatches pat []
  | c :: cs => headMatches pat (c :: cs) || containsSub pat cs

/-- Whether a message names the expected field SMILES
(case-insensitively). -/
def mentionsSMILES (s : String) : Bool :=
  containsSub "SMILES".data (s.data.map Char.toUpper)

/-- Directed edge index of the facade (`_construct_bond_index`): for
every bond in iteration order, both the `(start, end)` and the
`(end, start)` pair are emitted. -/
def construct_bond_index (m : FacadeMol) : List ℕ × List ℕ :=
  m.bondList.foldl
    (fun acc se => (acc.1 ++ [se.1, se.2], acc.2 ++ [se.2, se.1])) ([], [])

/-- Embedding of `DMPNNFeaturizer._featurize`: a non-molecule input
raises the input-type error; a molecule input (after the optional
hydrogen-addition transform, an external collaborator) has its global
features, atom feature matrix, zero-padded atom table, mapper outputs
and edge index assembled into the output record. -/
def featurizeDMPNN (env : GenEnv) (addHs : FacadeMol → FacadeMol)
    (cfg : DMPNNFeaturizerCfg) (datapoint : Datapoint) : Except String GraphData :=
  match datapoint with
  | Datapoint.invalid => Except.error dmpnnErrorMsg
  | Datapoint.ofMol m0 =>
    let m := if cfg.is_adding_hs then addHs m0 else m0
    let concat_fdim := ATOM_FDIM + BOND_FDIM
    let global_features :=
      match cfg.features_generators with
      | none => []
      | some gens =>
        (generate_global_features env { numHeavyAtoms := m.numHeavyAtoms } gens).1
    let f_atoms := m.atoms.map (fun a => atom_features (some a) none false)
    let f_atoms_zero_padded := List.replicate ATOM_FDIM (0 : ℚ) :: f_atoms
    let res := runMapper { bond := m.bondBetween } concat_fdim f_atoms_zero_padded
    Except.ok
      { node_features := f_atoms
      , edge_index := construct_bond_index m
      , global_features := global_features
      , mapping := res.mapping
      , node_features_zero_padded := f_atoms_zero_padded
      , concatenated_features_zero_padded := res.f_ini_atoms_bonds_zero_padded }

/-- C9: the facade raises the input-type error — whose message names
the expected SMILES field — exactly on non-molecule inputs; a valid
molecule handle never raises it and produces an output record. -/
theorem featurizer_validates_input (env : GenEnv) (addHs : FacadeMol → FacadeMol)
    (cfg : DMPNNFeaturizerCfg) :
    (∀ dp : Datapoint, (∀ m, dp ≠ Datapoint.ofMol m) →
      featurizeDMPNN env addHs cfg dp = Except.error dmpnnErrorMsg) ∧
    mentionsSMILES dmpnnErrorMsg = true ∧
    (∀ m, ∃ g, featurizeDMPNN env addHs cfg (Datapoint.ofMol m) = Except.ok g) := by
  refine ⟨?_, by decide, ?_⟩
  · intro dp hdp
    cases dp with
    | ofMol m => exact absurd rfl (hdp m)
    | invalid => rfl
  · intro m
    exact ⟨_, rfl⟩

/-- Concrete molecule handle for the facade witness. -/
def facadeMolW : FacadeMol :=
  { atoms := [], bondBetween := fun _ _ => none, bondList := [], numHeavyAtoms := 0 }

/-- Concrete generator environment for the facade witness. -/
def genEnvW : GenEnv := { registry := [], methane := { numHeavyAtoms := 1 } }

/-- Concrete facade configuration for the witness. -/
def cfgW : DMPNNFeaturizerCfg := { features_generators := none, is_adding_hs := false }

theorem featurizer_validates_input_witness :
    featurizeDMPNN genEnvW id cfgW Datapoint.invalid = Except.error dmpnnErrorMsg ∧
    mentionsSMILES dmpnnErrorMsg = true ∧
    ∃ g, featurizeDMPNN genEnvW id cfgW (Datapoint.ofMol facadeMolW) = Except.ok g :=
  ⟨(featurizer_validates_input genEnvW id cfgW).1 Datapoint.invalid
      (fun _ h => Datapoint.noConfusion h),
    (featurizer_validates_input genEnvW id cfgW).2.1,
    (featurizer_validates_input genEnvW id cfgW).2.2 facadeMolW⟩

end DMPNN
